import Mathlib

set_option maxRecDepth 8000

namespace Vimb

/-!
Shallow embedding of vimb's src/ex.c (the ex command-line mini-language:
registry, parser, dispatcher, completion and history stepping).

C strings are modelled as `List Char`; the terminating NUL is the end of the
list.  The mutated `const char **input` cursor becomes explicit
remaining-input passing.  External collaborators (webkit view, bookmark /
history / setting stores, the GTK completion widget) are oracle functions
bundled in `Env`.  `FEATURE_QUEUE` is not enabled, so the queue registry
entries are compiled out.
-/

abbrev Str := List Char

/-- `ExCode` from ex.c (queue codes omitted: FEATURE_QUEUE off). -/
inductive ExCode where
  | EX_BMA | EX_BMR | EX_EVAL | EX_HARDCOPY | EX_CMAP | EX_CNOREMAP
  | EX_IMAP | EX_NMAP | EX_NNOREMAP | EX_CUNMAP | EX_IUNMAP | EX_INOREMAP
  | EX_NUNMAP | EX_NORMAL | EX_OPEN | EX_QUIT | EX_SAVE | EX_SCA | EX_SCD
  | EX_SCR | EX_SET | EX_SHELLCMD | EX_TABOPEN
  deriving DecidableEq

def EX_FLAG_BANG : Nat := 1
def EX_FLAG_LHS  : Nat := 2
def EX_FLAG_RHS  : Nat := 4
def EX_FLAG_EXP  : Nat := 8

/-- One row of the `commands` table.  The C `func` pointer is modelled at the
dispatch site (`ex_run_string` takes an execution oracle), not stored here. -/
structure ExInfo where
  name  : Str
  code  : ExCode
  flags : Nat
  deriving DecidableEq

/-- Placeholder row used with `List.getD` (never reached on in-range indices). -/
def dInfo : ExInfo := ⟨[], ExCode.EX_BMA, 0⟩

/-- The static `commands[]` registry of ex.c, in source order (order is
significant: first defined wins on ambiguous abbreviations). -/
def commands : List ExInfo := [
  ⟨['b','m','a'], ExCode.EX_BMA, EX_FLAG_RHS⟩,
  ⟨['b','m','r'], ExCode.EX_BMR, EX_FLAG_RHS⟩,
  ⟨['c','m','a','p'], ExCode.EX_CMAP, EX_FLAG_LHS ||| EX_FLAG_RHS⟩,
  ⟨['c','n','o','r','e','m','a','p'], ExCode.EX_CNOREMAP, EX_FLAG_LHS ||| EX_FLAG_RHS⟩,
  ⟨['c','u','n','m','a','p'], ExCode.EX_CUNMAP, EX_FLAG_LHS⟩,
  ⟨['h','a','r','d','c','o','p','y'], ExCode.EX_HARDCOPY, 0⟩,
  ⟨['e','v','a','l'], ExCode.EX_EVAL, EX_FLAG_RHS⟩,
  ⟨['i','m','a','p'], ExCode.EX_IMAP, EX_FLAG_LHS ||| EX_FLAG_RHS⟩,
  ⟨['i','n','o','r','e','m','a','p'], ExCode.EX_INOREMAP, EX_FLAG_LHS ||| EX_FLAG_RHS⟩,
  ⟨['i','u','n','m','a','p'], ExCode.EX_IUNMAP, EX_FLAG_LHS⟩,
  ⟨['n','m','a','p'], ExCode.EX_NMAP, EX_FLAG_LHS ||| EX_FLAG_RHS⟩,
  ⟨['n','n','o','r','e','m','a','p'], ExCode.EX_NNOREMAP, EX_FLAG_LHS ||| EX_FLAG_RHS⟩,
  ⟨['n','o','r','m','a','l'], ExCode.EX_NORMAL, EX_FLAG_BANG ||| EX_FLAG_LHS⟩,
  ⟨['n','u','n','m','a','p'], ExCode.EX_NUNMAP, EX_FLAG_LHS⟩,
  ⟨['o','p','e','n'], ExCode.EX_OPEN, EX_FLAG_RHS⟩,
  ⟨['q','u','i','t'], ExCode.EX_QUIT, 0⟩,
  ⟨['s','a','v','e'], ExCode.EX_SAVE, EX_FLAG_RHS ||| EX_FLAG_EXP⟩,
  ⟨['s','e','t'], ExCode.EX_SET, EX_FLAG_RHS⟩,
  ⟨['s','h','e','l','l','c','m','d'], ExCode.EX_SHELLCMD, EX_FLAG_RHS ||| EX_FLAG_EXP⟩,
  ⟨['s','h','o','r','t','c','u','t','-','a','d','d'], ExCode.EX_SCA, EX_FLAG_RHS⟩,
  ⟨['s','h','o','r','t','c','u','t','-','d','e','f','a','u','l','t'], ExCode.EX_SCD, EX_FLAG_RHS⟩,
  ⟨['s','h','o','r','t','c','u','t','-','r','e','m','o','v','e'], ExCode.EX_SCR, EX_FLAG_RHS⟩,
  ⟨['t','a','b','o','p','e','n'], ExCode.EX_TABOPEN, EX_FLAG_RHS⟩]

/-- The parsed command record `ExArg`.  `g_new0` zero-initialises it; `name`
NULL is modelled as `[]`. -/
structure ExArg where
  count : Nat
  idx   : Nat
  name  : Str
  code  : ExCode
  bang  : Bool
  lhs   : Str
  rhs   : Str
  flags : Nat
  deriving DecidableEq

/-- The zeroed `ExArg` allocated by `ex_run_string` (`g_new0`). -/
def ExArg.init : ExArg := ⟨0, 0, [], ExCode.EX_BMA, false, [], [], 0⟩

/-- Inner `for` loop of `parse_command_name`: scan rows `i, i+1, ...` given the
previously matched characters `cmdPrev` (that is `cmd[0..len-2]`) and the
current input character `c` (`cmd[len-1]`).  The scan breaks at the first row
whose name no longer starts with `cmdPrev` (`len > 1 && strncmp(...)`), counts
the rows whose `name[len-1]` equals `c`, and records the first such row. -/
def cmdScanGo (cmdPrev : Str) (c : Char) : List (Nat × ExInfo) → Nat → Nat → Nat × Nat
  | [], first, mcnt => (first, mcnt)
  | (i, e) :: rest, first, mcnt =>
    if cmdPrev ≠ [] ∧ ¬ cmdPrev.isPrefixOf e.name then
      (first, mcnt)
    else if e.name[cmdPrev.length]? = some c then
      -- `if (!matches) first = i;` — the match on `mcnt` is the same test as
      -- `if mcnt = 0 then i else first`, stated so that both accumulators stay
      -- in evaluated form
      match mcnt with
      | 0 => cmdScanGo cmdPrev c rest i 1
      | m + 1 => cmdScanGo cmdPrev c rest first (m + 2)
    else
      cmdScanGo cmdPrev c rest first mcnt

/-- One execution of the scan starting at row `first` (C: `for (i = first, ...)`). -/
def cmdScan (first : Nat) (cmdPrev : Str) (c : Char) : Nat × Nat :=
  cmdScanGo cmdPrev c (commands.enum.drop first) first 0

/-- Result of `parse_command_name`: a resolved registry index plus the
remaining input, or the token shown in the "Unknown command" message plus the
remaining input. -/
inductive CmdResult where
  | found (idx : Nat) (rest : Str)
  | unknown (token : Str) (rest : Str)
  deriving DecidableEq

/-- The error loop of `parse_command_name`: after no row matched, keep copying
characters into `cmd` while `len < LENGTH(cmd)` (20) and the next character is
not a space.  At end of input the C loop tests the pointer `*input` (never
NULL) rather than the character, copies the terminating NUL into `cmd` — which
truncates the token that `%s` later displays — and then walks past the end of
the string; we model the observable token, which ends at end of input. -/
def errTokGo : Nat → Str → Str → Str × Str
  | _, acc, [] => (acc, [])
  | len, acc, c :: rest =>
    if len < 20 ∧ c ≠ ' ' then errTokGo (len + 1) (acc ++ [c]) rest
    else (acc, c :: rest)

/-- The `do { ... } while (matches > 0 && **input && **input != ' ' && **input != '!')`
loop of `parse_command_name`.  `cmdAcc` holds the characters copied into `cmd`
so far; the next character of the input is consumed at the top of the body. -/
def pcnLoop : Str → Str → Nat → CmdResult
  | [], cmdAcc, _ =>
    -- unreachable from `parse_command_name` (the loop guard requires a next char)
    CmdResult.unknown cmdAcc []
  | c :: rest, cmdAcc, first =>
    let cmd := cmdAcc ++ [c]
    match cmdScan first cmdAcc c with
    | (first1, mcnt) =>
      if mcnt > 0 then
        match rest with
        | [] => CmdResult.found first1 []
        | d :: _ =>
          if d = ' ' ∨ d = '!' then CmdResult.found first1 rest
          else pcnLoop rest cmd first1
      else
        match errTokGo cmd.length cmd rest with
        | (tok, rest1) => CmdResult.unknown tok rest1

/-- `parse_command_name` of ex.c.  On empty input the C body still runs once on
the NUL terminator: no row matches and the displayed token is empty (the NUL is
the first byte of `cmd`). -/
def parse_command_name (input : Str) : CmdResult :=
  match input with
  | [] => CmdResult.unknown [] []
  | _ => pcnLoop input [] 0

/-- Digit-consuming tail of `parse_count` (the `do ... while (isdigit)` loop,
entered only when the first character is a digit). -/
def parse_countGo : Str → Nat → Nat × Str
  | [], count => (count, [])
  | c :: rest, count =>
    if c.isDigit then parse_countGo rest (count * 10 + (c.toNat - 48))
    else (count, c :: rest)

/-- `parse_count` of ex.c.  Note the C code only resets `arg->count` to 0 in
the no-digit branch; when digits are present it keeps accumulating onto the
value already stored in the (reused) `ExArg`. -/
def parse_count (input : Str) (count0 : Nat) : Nat × Str :=
  match input with
  | [] => (0, [])
  | c :: _ => if c.isDigit then parse_countGo input count0 else (0, input)

/-- `skip_whitespace` of ex.c (spaces only). -/
def skip_whitespace (s : Str) : Str := s.dropWhile (fun c => c = ' ')

/-- `parse_bang` of ex.c: consume a single `!` if present; `arg->bang` keeps
its previous value otherwise. -/
def parse_bang : Str → Bool → Bool × Str
  | '!' :: rest, _ => (true, rest)
  | s, bang => (bang, s)

/-- `parse_lhs` of ex.c: copy characters into `lhs` up to the next unescaped
space.  On a backslash the C code advances and tests `if (!*input)` — the
*pointer*, never NULL — so its intended end-of-input branch is dead: a trailing
backslash appends the backslash AND the terminating NUL to `lhs`, and the
cursor is then advanced past the end of the string (undefined reads follow in
C).  We model the two observable appends and end the loop at end of input. -/
def parse_lhs : Str → Str → Str × Str
  | [], acc => (acc, [])
  | c :: rest, acc =>
    if c = ' ' then (acc, c :: rest)
    else if c = '\\' then
      match rest with
      | [] => (acc ++ ['\\', '\x00'], [])
      | d :: rest2 =>
        if d = ' ' then parse_lhs rest2 (acc ++ [' '])
        else parse_lhs rest2 (acc ++ ['\\', d])
    else parse_lhs rest (acc ++ [c])

/-- `VB_INPUT_COMMAND` / `VB_INPUT_SEARCH_FORWARD`, the history types
`history()` requests from `history_get_list` (forward and backward search
share one stream, so only one search type is ever requested). -/
inductive InputType where
  | command | search
  deriving DecidableEq

/-- `HISTORY_URL` / `HISTORY_SEARCH`, the types `complete()` passes to
`history_fill_completion`. -/
inductive HistoryKind where
  | url | search
  deriving DecidableEq

/-- Collaborator oracles consumed by the core (spec §6): browsing-engine
getters, the home directory, bookmark / history / setting stores (the fill
oracles return the `found` flag of the corresponding `*_fill_completion`
call), and the candidate the completion widget hands to the selection
callback (`none` = it selects nothing). -/
structure Env where
  uri   : Option Str
  home  : Str
  title : Option Str
  bookmark_remove : Option Str → Bool
  bookmark_add : Option Str → Option Str → Str → Bool
  history_get_list : InputType → Str → List Str
  bookmark_fill : Str → Bool
  history_fill : HistoryKind → Str → Bool
  setting_fill : Str → Bool
  bookmark_fill_tag : Str → Bool
  comp_select : Option Str

/-- `parse_rhs` of ex.c: copy characters into `rhs` up to the next unescaped
newline or `|`.  The trailing-backslash branch has the same dead pointer test
as `parse_lhs` (see there).  `expand_input` is inlined at the `EX_FLAG_EXP`
check: for `%` it appends the current URI (if any) and leaves the cursor on
the `%`; for `~` it advances once, appends home plus `/` only when the next
character is `/`, and otherwise appends nothing — in every `~` case the
character after the `~` is additionally skipped by the `(*input)++` at the
bottom of the `parse_rhs` loop.  A `~` as the final character makes the C code
step past the terminating NUL (undefined reads); we end the loop there. -/
def parse_rhs (env : Env) (flags : Nat) : Str → Str → Str × Str
  | [], acc => (acc, [])
  | c :: rest, acc =>
    if c = '\n' ∨ c = '|' then (acc, c :: rest)
    else if c = '\\' then
      match rest with
      | [] => (acc ++ ['\\', '\x00'], [])
      | d :: rest2 =>
        if d = '|' then parse_rhs env flags rest2 (acc ++ ['|'])
        else parse_rhs env flags rest2 (acc ++ ['\\', d])
    else if flags.land EX_FLAG_EXP ≠ 0 ∧ (c = '%' ∨ c = '~') then
      if c = '%' then
        parse_rhs env flags rest (acc ++ env.uri.getD [])
      else
        match rest with
        | [] => (acc, [])
        | d :: rest2 =>
          if d = '/' then parse_rhs env flags rest2 (acc ++ env.home ++ ['/'])
          else parse_rhs env flags rest2 acc
    else
      parse_rhs env flags rest (acc ++ [c])

/-- Result of one `parse` call.  The C function returns a bare `gboolean`; we
additionally surface the "Unknown command" token that `parse_command_name`
passes to `vb_echo` so the notification can be stated. -/
inductive ParseResult where
  | ok (arg : ExArg) (rest : Str)
  | empty
  | unknown (token : Str)
  deriving DecidableEq

/-- `parse` of ex.c: truncate `lhs`/`rhs`, skip leading `:` and spaces, parse
the count, resolve the command name, then the optional bang / lhs / rhs
according to the resolved flags, and finally advance past one character if any
remains (`if (**input) (*input)++;` — whatever that character is). -/
def parse (env : Env) (input : Str) (arg : ExArg) : ParseResult :=
  if input = [] then ParseResult.empty
  else
    let arg := { arg with lhs := [], rhs := [] }
    let input := input.dropWhile (fun c => c = ':' ∨ c = ' ')
    match parse_count input arg.count with
    | (count, input) =>
      let arg := { arg with count := count }
      let input := skip_whitespace input
      match parse_command_name input with
      | CmdResult.unknown tok _ => ParseResult.unknown tok
      | CmdResult.found idx input =>
        let info := commands.getD idx dInfo
        let arg := { arg with idx := idx, code := info.code, name := info.name,
                              flags := info.flags }
        match (if info.flags.land EX_FLAG_BANG ≠ 0 then parse_bang input arg.bang
               else (arg.bang, input)) with
        | (bang, input) =>
          let arg := { arg with bang := bang }
          let input := skip_whitespace input
          match (if info.flags.land EX_FLAG_LHS ≠ 0 then parse_lhs input arg.lhs
                 else (arg.lhs, input)) with
          | (lhs, input) =>
            let arg := { arg with lhs := lhs }
            let input := skip_whitespace input
            match (if info.flags.land EX_FLAG_RHS ≠ 0 then
                     parse_rhs env info.flags input arg.rhs
                   else (arg.rhs, input)) with
            | (rhs, input) =>
              ParseResult.ok { arg with rhs := rhs } input.tail

/-- The message `parse_command_name` echoes on failure
(`"Unknown command: %s"`). -/
def unknown_command_message (tok : Str) : Str :=
  ['U','n','k','n','o','w','n',' ','c','o','m','m','a','n','d',':',' '] ++ tok

/-- Outcome of `ex_run_string`: overall success, the invocations passed to
`execute` in order, and the unknown-command token if a parse failure aborted
the run. -/
structure RunResult where
  success : Bool
  invoked : List ExArg
  errTok  : Option Str
  deriving DecidableEq

/-- The `while (input && *input)` loop of `ex_run_string`.  `exec` is the
dispatch oracle standing for `commands[arg->idx].func`.  Fuel is the input
length plus one: every successful `parse` consumes at least the one character
read by `parse_command_name`, so the fuel never runs out. -/
def runGo (env : Env) (exec : ExArg → Bool) : Nat → Str → ExArg → List ExArg → RunResult
  | 0, _, _, invoked => ⟨false, invoked, none⟩
  | fuel + 1, input, arg, invoked =>
    if input = [] then ⟨true, invoked, none⟩
    else
      match parse env input arg with
      | ParseResult.empty => ⟨false, invoked, none⟩
      | ParseResult.unknown tok => ⟨false, invoked, some tok⟩
      | ParseResult.ok arg' rest =>
        if exec arg' then runGo env exec fuel rest arg' (invoked ++ [arg'])
        else ⟨false, invoked ++ [arg'], none⟩

/-- `ex_run_string` of ex.c with the dispatcher abstracted into `exec`. -/
def ex_run_string (env : Env) (exec : ExArg → Bool) (input : Str) : RunResult :=
  runGo env exec (input.length + 1) input ExArg.init []

/-- `ex_bookmark` of ex.c.  Returns the handler result plus the message passed
to `vb_echo_force` (note the two-space indentation in the source literals).
For `EX_BMR` an empty `rhs` falls back to `GET_URI()` (which may be NULL). -/
def ex_bookmark (env : Env) (arg : ExArg) : Bool × Option Str :=
  if arg.code = ExCode.EX_BMR then
    if env.bookmark_remove (if arg.rhs ≠ [] then some arg.rhs else env.uri) then
      (true, some ([' ',' ','B','o','o','k','m','a','r','k',' ',
                    'r','e','m','o','v','e','d']))
    else (false, none)
  else
    if env.bookmark_add env.uri env.title arg.rhs then
      (true, some ([' ',' ','B','o','o','k','m','a','r','k',' ',
                    'a','d','d','e','d']))
    else (false, none)

/-- The static `excomp` record of ex.c: numeric count captured from the input,
completion `prefix` and the `current` full input text last written by a
selection.  `prefix`/`current` are `char*` that may be NULL, hence `Option`.
(The field is called `pfx` here.) -/
structure CompState where
  count   : Nat
  pfx     : Option Str
  current : Option Str
  deriving DecidableEq

/-- A node of the `GList` held in `exhist.active`: entries reachable via
`g_list_previous` (newer), the current entry, and entries reachable via
`g_list_next` (older). -/
structure HZip where
  newer : List Str
  cur   : Str
  older : List Str
  deriving DecidableEq

/-- The static `exhist` record of ex.c: the sigil prefix (NULL modelled as
`[]`) and the active list node (`NULL` = no session). -/
structure HistState where
  pfx    : Str
  active : Option HZip
  deriving DecidableEq

/-- The ex.c-owned mutable state a keypress can reach: the inputbox text, the
`FLAG_COMPLETION` bit of the mode flags, and the two static session records. -/
structure ExState where
  input    : Str
  compFlag : Bool
  comp     : CompState
  hist     : HistState
  deriving DecidableEq

/-- `history_rewind` of ex.c: if a session is active, release the entry list
and clear the prefix (`OVERWRITE_STRING(exhist.prefix, NULL)`). -/
def history_rewind (hs : HistState) : HistState :=
  if hs.active.isSome then { pfx := [], active := none } else hs

/-- The cursor movement of `history()`: `prev` follows `g_list_next` (older),
otherwise `g_list_previous` (newer); moving past a boundary is a no-op. -/
def hist_move (z : HZip) (prev : Bool) : HZip :=
  if prev then
    match z.older with
    | [] => z
    | e :: es => ⟨z.cur :: z.newer, e, es⟩
  else
    match z.newer with
    | [] => z
    | e :: es => ⟨es, e, z.cur :: z.older⟩

/-- `history` of ex.c.  Returns the new `exhist` state, the inputbox content
after the call (`vb_echo_force` writes `prefix ++ entry` on success; the input
is untouched on failure), and the boolean result.  If a session is active but
the live input is not `prefix ++ active->data`, the session is rewound first;
a fresh session classifies the input by its first non-space character and
fetches the matching list (filtered by the text after the sigil) from the
history collaborator. -/
def history (env : Env) (hs : HistState) (input : Str) (prev : Bool) :
    HistState × Str × Bool :=
  let hs1 :=
    match hs.active with
    | some z => if input ≠ hs.pfx ++ z.cur then history_rewind hs else hs
    | none => hs
  match hs1.active with
  | some z =>
    let z1 := hist_move z prev
    ({ hs1 with active := some z1 }, hs1.pfx ++ z1.cur, true)
  | none =>
    match skip_whitespace input with
    | [] => (hs1, input, false)
    | c :: rest =>
      if c = ':' ∨ c = '/' ∨ c = '?' then
        match env.history_get_list
            (if c = ':' then InputType.command else InputType.search) rest with
        | [] => (hs1, input, false)
        | e :: es =>
          let z1 := hist_move ⟨[], e, es⟩ prev
          ({ pfx := [c], active := some z1 }, [c] ++ z1.cur, true)
      else (hs1, input, false)

/-- The `history()` call as a transition on the whole ex.c state (the entry
points `ex_keypress` KEY_UP/KEY_DOWN).  It reads and writes only the inputbox
and `exhist`. -/
def history_step (env : Env) (st : ExState) (prev : Bool) : ExState × Bool :=
  let r := history env st.hist st.input prev
  ({ st with hist := r.1, input := r.2.1 }, r.2.2)

/-- Modelled from the spec: `completion_clean` lives in completion.c (not
under src/); per the spec it discards the widget's candidate list and clears
the completion flag.  It cannot touch `excomp`/`exhist`, which are `static`
in ex.c. -/
def completion_clean (st : ExState) : ExState := { st with compFlag := false }

/-- `completion_select` of ex.c: the callback the completion widget invokes
with the chosen candidate.  Rebuilds the input as
`prefix ++ count (if nonzero, in decimal) ++ match`, stores it in
`excomp.current` and writes it to the inputbox. -/
def completion_select (st : ExState) (mtch : Str) : ExState :=
  let cur := (st.comp.pfx.getD []) ++
    (if st.comp.count ≠ 0 then Nat.toDigits 10 st.comp.count else []) ++ mtch
  { st with comp := { st.comp with current := some cur }, input := cur }

/-- Modelled from the spec: `completion_next` (completion.c, not under src/)
cycles the widget's candidate cursor and invokes the `completion_select`
callback with the newly selected match (abstracted by the `comp_select`
oracle). -/
def completion_next (env : Env) (st : ExState) : ExState :=
  match env.comp_select with
  | some m => completion_select st m
  | none => st

/-- Modelled from the spec: `completion_create` (completion.c, not under
src/) shows the candidate list, sets the completion flag and lets the widget
select a first candidate through the `completion_select` callback. -/
def completion_create (env : Env) (st : ExState) : ExState :=
  let st1 := { st with compFlag := true }
  match env.comp_select with
  | some m => completion_select st1 m
  | none => st1

/-- `ex_fill_completion` of ex.c: with empty input every registry row is
offered; otherwise the rows whose name starts with the input. -/
def ex_fill_completion (input : Str) : Bool :=
  if input = [] then !commands.isEmpty
  else commands.any (fun e => input.isPrefixOf e.name)

/-- The command-name-position branch of `complete()` (`in` was restored to
`before_cmdname`): back up the parsed count into `excomp.count` and offer the
matching command names, with `excomp.prefix` set to ":" when any exist. -/
def completeCmdName (env : Env) (st : ExState) (count : Nat) (inp : Str) :
    ExState × Bool :=
  let st1 := { st with comp := { st.comp with count := count } }
  if ex_fill_completion inp then
    let st2 := { st1 with comp := { st1.comp with pfx := some [':'] } }
    (completion_create env st2, true)
  else (st1, true)

/-- The argument-position branch of `complete()`: a complete command name
followed by a space was parsed.  `excomp.prefix` is set to the input up to and
including that space (`in - input + 1` characters), then the candidate source
is chosen by the command's code exactly as in the C `switch`. -/
def completeArgPos (env : Env) (st : ExState) (idx : Nat) (rest : Str) :
    ExState × Bool :=
  let st1 := { st with comp := { st.comp with
    pfx := some (st.input.take (st.input.length - rest.length + 1)) } }
  let in4 := skip_whitespace rest
  let found :=
    match (commands.getD idx dInfo).code with
    | ExCode.EX_OPEN | ExCode.EX_TABOPEN =>
      match in4 with
      | '!' :: q => env.bookmark_fill q
      | _ => env.history_fill HistoryKind.url in4
    | ExCode.EX_SET => env.setting_fill in4
    | ExCode.EX_BMA => env.bookmark_fill_tag in4
    | _ => false
  if found then (completion_create env st1, true) else (st1, true)

/-- The `*in == ':'` branch of a fresh `complete()` run: skip whitespace,
parse the count, and try to match a full command name followed by a space;
otherwise fall back to command-name completion on `before_cmdname`. -/
def completeColon (env : Env) (st : ExState) (in1 : Str) : ExState × Bool :=
  match parse_count (skip_whitespace in1) 0 with
  | (count, bef) =>
    match parse_command_name bef with
    | CmdResult.found idx rest =>
      if rest.head? = some ' ' then completeArgPos env st idx rest
      else completeCmdName env st count bef
    | CmdResult.unknown _ _ => completeCmdName env st count bef

/-- The `*in == '/' || *in == '?'` branch of a fresh `complete()` run. -/
def completeSearch (env : Env) (st : ExState) (c : Char) (in1 : Str) :
    ExState × Bool :=
  if env.history_fill HistoryKind.search in1 then
    let st1 := { st with comp := { st.comp with pfx := some [c] } }
    (completion_create env st1, true)
  else (st, true)

/-- A fresh `complete()` run, dispatching on the input's leading sigil. -/
def completeFresh (env : Env) (st : ExState) : ExState × Bool :=
  match st.input with
  | [] => (st, true)
  | ':' :: in1 => completeColon env st in1
  | c :: in1 =>
    if c = '/' ∨ c = '?' then completeSearch env st c in1
    else (st, true)

/-- `complete` of ex.c.  Direction 0 stops completion.  If a completion
session is active and the live input still equals `excomp.current`, the
candidate cursor is cycled; otherwise any active session is cleaned and a new
one is started from the current input (`completeFresh`).  The C function
returns TRUE on every path. -/
def complete (env : Env) (st : ExState) (direction : Int) : ExState × Bool :=
  if direction = 0 then (completion_clean st, true)
  else if st.compFlag ∧ st.comp.current = some st.input then
    (completion_next env st, true)
  else
    completeFresh env (if st.compFlag then completion_clean st else st)

/-! ### Concrete fixtures for witnesses and counterexamples -/

/-- `http://example.org/`. -/
def uriEO : Str :=
  ['h','t','t','p',':','/','/','e','x','a','m','p','l','e','.','o','r','g','/']

/-- `/home/user`. -/
def homeU : Str := ['/','h','o','m','e','/','u','s','e','r']

/-- A concrete oracle environment: current page `http://example.org/`, home
directory `/home/user`, all store operations succeed, the history collaborator
returns two entries derived from the query, the completion widget selects
nothing. -/
def envEx : Env :=
  { uri := some uriEO, home := homeU, title := none,
    bookmark_remove := fun _ => true,
    bookmark_add := fun _ _ _ => true,
    history_get_list := fun _ q => [q ++ ['1'], q ++ ['2']],
    bookmark_fill := fun _ => true,
    history_fill := fun _ _ => true,
    setting_fill := fun _ => true,
    bookmark_fill_tag := fun _ => true,
    comp_select := none }

/-- The dispatch oracle that lets every handler succeed. -/
def execT : ExArg → Bool := fun _ => true

/-- The ex line `o %` (after the `:` sigil is stripped). -/
def inpOpenPct : Str := ['o',' ','%']

/-- The ex line `shellcmd %`. -/
def inpShellPct : Str := ['s','h','e','l','l','c','m','d',' ','%']

/-- Result of parsing `o %`: the open command with rhs exactly `%`. -/
def argOpenPct : ExArg :=
  ⟨0, 14, ['o','p','e','n'], ExCode.EX_OPEN, false, [], ['%'], EX_FLAG_RHS⟩

/-- Result of parsing `shellcmd %` under `envEx`: rhs is the page address. -/
def argShellPct : ExArg :=
  ⟨0, 18, ['s','h','e','l','l','c','m','d'], ExCode.EX_SHELLCMD, false, [],
   uriEO, EX_FLAG_RHS ||| EX_FLAG_EXP⟩

/-- The ex line `1open a|2open b`. -/
def inpChain : Str :=
  ['1','o','p','e','n',' ','a','|','2','o','p','e','n',' ','b']

/-- Result of parsing the first command of `1open a|2open b`. -/
def argChain1 : ExArg :=
  ⟨1, 14, ['o','p','e','n'], ExCode.EX_OPEN, false, [], ['a'], EX_FLAG_RHS⟩

/-- What remains of `1open a|2open b` after its first command. -/
def restChain : Str := ['2','o','p','e','n',' ','b']

/-- Result of parsing the second command of `1open a|2open b`: its own digit
run is `2`, but the count comes out as 12 because the previous count 1 is
still in the accumulator. -/
def argChain2 : ExArg :=
  ⟨12, 14, ['o','p','e','n'], ExCode.EX_OPEN, false, [], ['b'], EX_FLAG_RHS⟩

/-- The ex line `25o example.com`. -/
def inp25 : Str :=
  ['2','5','o',' ','e','x','a','m','p','l','e','.','c','o','m']

/-- Result of parsing `25o example.com`. -/
def arg25 : ExArg :=
  ⟨25, 14, ['o','p','e','n'], ExCode.EX_OPEN, false, [],
   ['e','x','a','m','p','l','e','.','c','o','m'], EX_FLAG_RHS⟩

/-- The ex line `frobnicate`. -/
def inpFrob : Str := ['f','r','o','b','n','i','c','a','t','e']

/-- The ex line `frobnicate|quit`. -/
def inpFrobChain : Str := inpFrob ++ ['|','q','u','i','t']

/-- The ex line `quit x|quit`. -/
def inpQuitX : Str := ['q','u','i','t',' ','x','|','q','u','i','t']

/-- Result of parsing the first command of `quit x|quit`. -/
def argQuitX : ExArg := ⟨0, 15, ['q','u','i','t'], ExCode.EX_QUIT, false, [], [], 0⟩

/-- The ex line `open a|quit`. -/
def inpOpenChain : Str := ['o','p','e','n',' ','a','|','q','u','i','t']

/-- Result of parsing the first command of `open a|quit`. -/
def argOpenA : ExArg :=
  ⟨0, 14, ['o','p','e','n'], ExCode.EX_OPEN, false, [], ['a'], EX_FLAG_RHS⟩

/-- The ex line `bmr`. -/
def inpBmr : Str := ['b','m','r']

/-- Result of parsing `bmr`: the bookmark-remove command with empty rhs. -/
def argBmr : ExArg := ⟨0, 1, ['b','m','r'], ExCode.EX_BMR, false, [], [], EX_FLAG_RHS⟩

/-- The `"  Bookmark removed"` message literal (two leading spaces, as in the
source). -/
def bmRemovedMsg : Str :=
  [' ',' ','B','o','o','k','m','a','r','k',' ','r','e','m','o','v','e','d']

/-- Decimal value of a digit run (the accumulation `count * 10 + (c - '0')`
starting from 0). -/
def digitsVal (ds : Str) : Nat := ds.foldl (fun a c => a * 10 + (c.toNat - 48)) 0

/-- Registry-wide check for claim C2, part one: every registered name that is
a prefix of a later registered name resolves (followed by a space) to its own
row.  (No such pair exists in this registry, which the check also verifies.) -/
def firstWinsCheck : Bool :=
  (List.range commands.length).all fun i =>
    (List.range commands.length).all fun j =>
      !(decide (i < j)) ||
      !((commands.getD i dInfo).name.isPrefixOf (commands.getD j dInfo).name) ||
      decide (parse_command_name ((commands.getD i dInfo).name ++ [' ']) =
        CmdResult.found i [' '])

/-- Registry-wide check for claim C2, part two: every nonempty prefix of a
registered name, followed by a space, resolves to the earliest row in registry
order whose name extends that prefix — never to an "ambiguous" error (the
result type of `parse_command_name` has no such error at all). -/
def sharedResolveCheck : Bool :=
  (List.range commands.length).all fun j =>
    (List.range (commands.getD j dInfo).name.length).all fun l =>
      decide (parse_command_name
          ((commands.getD j dInfo).name.take (l + 1) ++ [' ']) =
        CmdResult.found
          (commands.findIdx fun e =>
            ((commands.getD j dInfo).name.take (l + 1)).isPrefixOf e.name)
          [' '])

/-- The ex line `shellcmd echo ~user`. -/
def inpShellTilde : Str :=
  ['s','h','e','l','l','c','m','d',' ','e','c','h','o',' ','~','u','s','e','r']

/-- Result of parsing `shellcmd echo ~user`: both the `~` and the following
`u` are dropped from the rhs. -/
def argShellTilde : ExArg :=
  ⟨0, 18, ['s','h','e','l','l','c','m','d'], ExCode.EX_SHELLCMD, false, [],
   ['e','c','h','o',' ','s','e','r'], EX_FLAG_RHS ||| EX_FLAG_EXP⟩

/-- The ex line `quit x`. -/
def inpQuitX2 : Str := ['q','u','i','t',' ','x']

/-- 25 letters with no space: the unknown-command token is capped at the
20-byte `cmd` buffer. -/
def inpAlpha25 : Str :=
  ['a','b','c','d','e','f','g','h','i','j','k','l','m',
   'n','o','p','q','r','s','t','u','v','w','x','y']

/-- A history session on prefix `:` showing entry `abc`, with `abd` older. -/
def hzEx : HZip := ⟨[], ['a','b','c'], [['a','b','d']]⟩

/-- `exhist` with the `hzEx` session active. -/
def hsEx : HistState := ⟨[':'], some hzEx⟩

/-- Live input `:abX`, diverging from the session's `:abc`. -/
def inpDiverged : Str := [':','a','b','X']

/-- Full ex.c state with the `hzEx` history session active, no completion
session, and inputbox text `:o`. -/
def stHistActive : ExState := ⟨[':','o'], false, ⟨0, none, none⟩, hsEx⟩

/-! ### Helper lemmas -/

/-- Shifting the accumulator out of the digit-accumulation fold. -/
theorem foldl_digits_shift (ds : Str) : ∀ a : Nat,
    ds.foldl (fun x c => x * 10 + (c.toNat - 48)) a
      = a * 10 ^ ds.length + ds.foldl (fun x c => x * 10 + (c.toNat - 48)) 0 := by
  induction ds with
  | nil => intro a; simp
  | cons c ds ih =>
    intro a
    simp only [List.foldl_cons, List.length_cons]
    rw [ih (a * 10 + (c.toNat - 48)), ih (0 * 10 + (c.toNat - 48))]
    ring

/-- The digit loop of `parse_count` consumes exactly the leading digit run and
accumulates it onto the incoming value. -/
theorem parse_countGo_spec (input : Str) : ∀ a : Nat,
    parse_countGo input a =
      (a * 10 ^ (input.takeWhile Char.isDigit).length +
        digitsVal (input.takeWhile Char.isDigit),
       input.dropWhile Char.isDigit) := by
  induction input with
  | nil => intro a; simp [parse_countGo, digitsVal]
  | cons c rest ih =>
    intro a
    by_cases hc : c.isDigit
    · rw [parse_countGo, if_pos hc, ih]
      rw [List.takeWhile_cons, if_pos hc, List.dropWhile_cons_of_pos hc]
      simp only [Prod.mk.injEq, List.length_cons, digitsVal, List.foldl_cons]
      refine ⟨?_, by trivial⟩
      rw [foldl_digits_shift (rest.takeWhile Char.isDigit) (0 * 10 + (c.toNat - 48))]
      ring
    · rw [parse_countGo, if_neg hc]
      rw [List.takeWhile_cons, if_neg hc, List.dropWhile_cons_of_neg hc]
      simp [digitsVal]

/-- With empty input the `ex_run_string` loop ends (successfully, unless the
fuel — which `ex_run_string` always provisions amply — were exhausted). -/
theorem runGo_nil (env : Env) (exec : ExArg → Bool) (n : Nat) (arg : ExArg)
    (invoked : List ExArg) :
    runGo env exec n [] arg invoked =
      if n = 0 then ⟨false, invoked, none⟩ else ⟨true, invoked, none⟩ := by
  cases n <;> simp [runGo]

/-- One successful `parse` step of the `ex_run_string` loop: the invocation is
dispatched and the loop continues with the rest of the line. -/
theorem runGo_ok (env : Env) (exec : ExArg → Bool) (n : Nat) (input : Str)
    (arg arg2 : ExArg) (invoked : List ExArg) (rest : Str) (hn : n ≠ 0)
    (hne : ¬ input = []) (hp : parse env input arg = ParseResult.ok arg2 rest) :
    runGo env exec n input arg invoked =
      if exec arg2 then runGo env exec (n - 1) rest arg2 (invoked ++ [arg2])
      else ⟨false, invoked ++ [arg2], none⟩ := by
  cases n with
  | zero => exact absurd rfl hn
  | succ m =>
    rw [runGo, if_neg hne, hp]
    simp

/-- One failed `parse` step of the `ex_run_string` loop: the run aborts with
the unknown-command token and nothing further is dispatched. -/
theorem runGo_unknown (env : Env) (exec : ExArg → Bool) (n : Nat) (input : Str)
    (arg : ExArg) (invoked : List ExArg) (tok : Str) (hn : n ≠ 0)
    (hne : ¬ input = []) (hp : parse env input arg = ParseResult.unknown tok) :
    runGo env exec n input arg invoked = ⟨false, invoked, some tok⟩ := by
  cases n with
  | zero => exact absurd rfl hn
  | succ m =>
    rw [runGo, if_neg hne, hp]

theorem compClean_hist (st : ExState) : (completion_clean st).hist = st.hist := rfl

theorem compSelect_hist (st : ExState) (m : Str) :
    (completion_select st m).hist = st.hist := rfl

theorem compNext_hist (env : Env) (st : ExState) :
    (completion_next env st).hist = st.hist := by
  unfold completion_next
  cases env.comp_select <;> rfl

theorem compCreate_hist (env : Env) (st : ExState) :
    (completion_create env st).hist = st.hist := by
  unfold completion_create
  cases env.comp_select
  · rfl
  · rw [compSelect_hist]

theorem cmdNameBranch_hist (env : Env) (st : ExState) (n : Nat) (inp : Str) :
    ((completeCmdName env st n inp).1).hist = st.hist := by
  simp only [completeCmdName]
  split
  · rw [compCreate_hist]
  · rfl

theorem argPosBranch_hist (env : Env) (st : ExState) (idx : Nat) (rest : Str) :
    ((completeArgPos env st idx rest).1).hist = st.hist := by
  simp only [completeArgPos]
  split
  · rw [compCreate_hist]
  · rfl

theorem colonBranch_hist (env : Env) (st : ExState) (in1 : Str) :
    ((completeColon env st in1).1).hist = st.hist := by
  simp only [completeColon]
  split
  · split
    · rw [argPosBranch_hist]
    · rw [cmdNameBranch_hist]
  · rw [cmdNameBranch_hist]

theorem searchBranch_hist (env : Env) (st : ExState) (c : Char) (in1 : Str) :
    ((completeSearch env st c in1).1).hist = st.hist := by
  simp only [completeSearch]
  split
  · rw [compCreate_hist]
  · rfl

theorem freshBranch_hist (env : Env) (st : ExState) :
    ((completeFresh env st).1).hist = st.hist := by
  simp only [completeFresh]
  split
  · rfl
  · rw [colonBranch_hist]
  · split
    · rw [searchBranch_hist]
    · rfl

/-! ### Claims -/

/-- C1 counterexample: with the current page address `http://example.org/`,
parsing `:o %` leaves rhs exactly `%` — the open command's registry entry does
not set `EX_FLAG_EXP`, so the expansion to the page address that the claim
demands does not happen. -/
theorem c1_counterexample :
    parse envEx inpOpenPct ExArg.init = ParseResult.ok argOpenPct [] ∧
    argOpenPct.rhs ≠ uriEO := by
  refine ⟨rfl, by decide⟩

/-- C1 (amended): `:o %` parses with rhs exactly `%`, because open's registry
entry does not mark its argument expandable; for a command that does mark it
(shellcmd, whose flags are `EX_FLAG_RHS ||| EX_FLAG_EXP`), `%` expands to the
current page's address obtained from the browsing-engine collaborator; and for
every flags value without the expandable bit, the rhs loop copies `%`
unexpanded. -/
theorem c1_amended :
    (∀ env : Env, parse env inpOpenPct ExArg.init = ParseResult.ok argOpenPct []) ∧
    (∀ env : Env, parse { env with uri := some uriEO } inpShellPct ExArg.init =
      ParseResult.ok argShellPct []) ∧
    (∀ (u : Str) (env : Env) (rest acc : Str),
      parse_rhs { env with uri := some u } (EX_FLAG_RHS ||| EX_FLAG_EXP)
          ('%' :: rest) acc =
        parse_rhs { env with uri := some u } (EX_FLAG_RHS ||| EX_FLAG_EXP)
          rest (acc ++ u)) ∧
    (∀ (flags : Nat) (env : Env) (rest acc : Str), flags.land EX_FLAG_EXP = 0 →
      parse_rhs env flags ('%' :: rest) acc = parse_rhs env flags rest (acc ++ ['%'])) := by
  refine ⟨fun env => rfl, fun env => rfl, fun u env rest acc => ?_, ?_⟩
  · rw [parse_rhs.eq_def]
    simp +decide
  · intro flags env rest acc h
    rw [parse_rhs.eq_def]
    simp +decide [h]

/-- C1 witness: the no-expansion conjunct of `c1_amended` applied at the open
command's flags value. -/
theorem c1_witness :
    (EX_FLAG_RHS).land EX_FLAG_EXP = 0 ∧
    parse_rhs envEx EX_FLAG_RHS ['%'] [] = parse_rhs envEx EX_FLAG_RHS [] ([] ++ ['%']) :=
  ⟨by decide, c1_amended.2.2.2 EX_FLAG_RHS envEx [] [] (by decide)⟩

/-- C2: command-name resolution is first-defined-wins over the actual
registry: (1) every registered name that is a prefix of a later registered
name resolves, followed by a separator, to its own row (no such pair exists in
this registry, which the check confirms vacuously while also verifying each
full name resolves to itself); (2) every nonempty prefix of a registered name,
followed by a separator, resolves to the earliest row in registry order whose
name extends the consumed prefix — and `parse_command_name`'s result type has
no ambiguity error at all, so none can ever be reported. -/
theorem c2_first_defined_wins : firstWinsCheck = true ∧ sharedResolveCheck = true :=
  ⟨rfl, rfl⟩

/-- C3 counterexample: running `1open a|2open b` parses the second command
with count 12, not 2: `parse_count` never resets the accumulator of the
`ExArg` that `ex_run_string` reuses across the chain, so the second command's
digit run `2` accumulates onto the first command's count 1. -/
theorem c3_counterexample :
    (ex_run_string envEx execT inpChain).invoked.map ExArg.count = [1, 12] ∧
    ([1, 12] : List Nat) ≠ [1, 2] := by
  have s1 : ex_run_string envEx execT inpChain =
      runGo envEx execT 16 inpChain ExArg.init [] := rfl
  have s2 : runGo envEx execT 16 inpChain ExArg.init [] =
      runGo envEx execT 15 restChain argChain1 [argChain1] :=
    runGo_ok envEx execT 16 inpChain ExArg.init argChain1 [] restChain
      (by decide) (by decide) rfl
  have s3 : runGo envEx execT 15 restChain argChain1 [argChain1] =
      runGo envEx execT 14 [] argChain2 [argChain1, argChain2] :=
    runGo_ok envEx execT 15 restChain argChain1 argChain2 [argChain1] []
      (by decide) (by decide) rfl
  have s4 : runGo envEx execT 14 [] argChain2 [argChain1, argChain2] =
      ⟨true, [argChain1, argChain2], none⟩ := by
    simp [runGo_nil]
  rw [s1, s2, s3, s4]
  exact ⟨by decide, by decide⟩

/-- C3 (amended): a parsed occurrence's count is 0 when it has no leading
digits; when it has a digit run, the run accumulates onto the count left in
the shared `ExArg` by the preceding command (0 for the first command of the
line, whose record is freshly zeroed), giving `prev * 10 ^ k + value`.  In
particular `25o example.com` — as the line's first command — yields count 25,
the open command, and rhs `example.com`, and the run succeeds. -/
theorem c3_amended :
    (∀ (input : Str) (c0 : Nat),
      parse_count input c0 =
        (if input.takeWhile Char.isDigit = [] then 0
         else c0 * 10 ^ (input.takeWhile Char.isDigit).length +
           digitsVal (input.takeWhile Char.isDigit),
         input.dropWhile Char.isDigit)) ∧
    (ex_run_string envEx execT inp25).invoked = [arg25] ∧
    (ex_run_string envEx execT inp25).success = true := by
  have s1 : ex_run_string envEx execT inp25 =
      runGo envEx execT 16 inp25 ExArg.init [] := rfl
  have s2 : runGo envEx execT 16 inp25 ExArg.init [] =
      runGo envEx execT 15 [] arg25 [arg25] :=
    runGo_ok envEx execT 16 inp25 ExArg.init arg25 [] []
      (by decide) (by decide) rfl
  have s3 : runGo envEx execT 15 [] arg25 [arg25] = ⟨true, [arg25], none⟩ := by
    simp [runGo_nil]
  refine ⟨?_, by rw [s1, s2, s3], by rw [s1, s2, s3]⟩
  intro input c0
  cases input with
  | nil => simp [parse_count]
  | cons c rest =>
    by_cases hc : c.isDigit
    · rw [parse_count, if_pos hc, parse_countGo_spec]
      rw [List.takeWhile_cons, if_pos hc, List.dropWhile_cons_of_pos hc]
      simp
    · rw [parse_count, if_neg hc]
      rw [List.takeWhile_cons, if_neg hc, List.dropWhile_cons_of_neg hc]
      simp

/-- C4: evaluation of the escaping rules.  A backslash before the argument's
terminator yields just the terminator; before any other character it yields
both characters — as the claim states.  But a backslash as the FINAL character
of the input does not yield a single backslash: the C code tests the pointer
`!*input` (never NULL) instead of the character, so the branch its own comment
documents ("if input ends here - use only the backslash") is dead; it appends
the backslash AND the terminating NUL to the argument and then advances the
cursor past the end of the string (the model stops there; the C code goes on
to read out of bounds). -/
theorem c4_escape_eval :
    (∀ (c : Char) (rest acc : Str),
      parse_lhs ('\\' :: c :: rest) acc =
        parse_lhs rest (acc ++ if c = ' ' then [' '] else ['\\', c])) ∧
    (∀ (env : Env) (flags : Nat) (c : Char) (rest acc : Str),
      parse_rhs env flags ('\\' :: c :: rest) acc =
        parse_rhs env flags rest (acc ++ if c = '|' then ['|'] else ['\\', c])) ∧
    parse_lhs ['a','\\'] [] = (['a','\\','\x00'], []) ∧
    parse_rhs envEx EX_FLAG_RHS ['a','\\'] [] = (['a','\\','\x00'], []) := by
  refine ⟨fun c rest acc => ?_, fun env flags c rest acc => ?_, rfl, rfl⟩
  · by_cases hc : c = ' ' <;> simp [parse_lhs, hc]
  · by_cases hc : c = '|' <;> simp [parse_rhs, hc]

/-- C5 counterexample: for the expandable shellcmd argument, `echo ~user`
parses to rhs `echo ser` — the `~` and the following `u` are dropped — so the
text does NOT remain unchanged as the claim states. -/
theorem c5_counterexample :
    parse envEx inpShellTilde ExArg.init = ParseResult.ok argShellTilde [] ∧
    argShellTilde.rhs ≠ ['e','c','h','o',' ','~','u','s','e','r'] := by
  refine ⟨rfl, by decide⟩

/-- C5 (amended): for arguments flagged expandable (every such registry entry
has flags `EX_FLAG_RHS ||| EX_FLAG_EXP`), an unescaped `~` followed by `/` —
at ANY position of the rhs, not only a leading one — is replaced by the home
directory followed by `/`; an unescaped `~` followed by any other character
causes both the `~` and that character to be omitted from the rhs (the text
does not remain unchanged). -/
theorem c5_amended :
    (∀ (env : Env) (c : Char) (rest acc : Str),
      parse_rhs env (EX_FLAG_RHS ||| EX_FLAG_EXP) ('~' :: c :: rest) acc =
        if c = '/' then
          parse_rhs env (EX_FLAG_RHS ||| EX_FLAG_EXP) rest (acc ++ env.home ++ ['/'])
        else parse_rhs env (EX_FLAG_RHS ||| EX_FLAG_EXP) rest acc) ∧
    parse_rhs envEx (EX_FLAG_RHS ||| EX_FLAG_EXP) ['a',' ','~','/','b'] [] =
      (['a',' '] ++ homeU ++ ['/','b'], []) ∧
    (commands.all fun e =>
      (e.flags.land EX_FLAG_EXP == 0) || (e.flags == EX_FLAG_RHS ||| EX_FLAG_EXP)) = true := by
  refine ⟨fun env c rest acc => ?_, rfl, rfl⟩
  by_cases hc : c = '/'
  · subst hc
    rw [if_pos rfl, parse_rhs.eq_def]
    simp +decide
  · rw [if_neg hc, parse_rhs.eq_def]
    simp +decide [hc]

/-- C6: an unknown command name fails the parse, leaves every remaining
chained command unprocessed (no invocation is dispatched, whatever the
dispatch oracle would do), and reports the token built from the consumed
characters continued up to the next whitespace or end of input, capped by the
20-byte name buffer; `:frobnicate` reports exactly `frobnicate`, and the
notification text is `Unknown command: frobnicate`. -/
theorem c6_unknown_command :
    (∀ (env : Env) (exec : ExArg → Bool),
      ex_run_string env exec inpFrob = ⟨false, [], some inpFrob⟩) ∧
    (∀ (env : Env) (exec : ExArg → Bool),
      ex_run_string env exec inpFrobChain = ⟨false, [], some inpFrobChain⟩) ∧
    (∀ (env : Env) (exec : ExArg → Bool),
      ex_run_string env exec inpAlpha25 = ⟨false, [], some (inpAlpha25.take 20)⟩) ∧
    unknown_command_message inpFrob =
      ['U','n','k','n','o','w','n',' ','c','o','m','m','a','n','d',':',' ',
       'f','r','o','b','n','i','c','a','t','e'] := by
  refine ⟨fun env exec => ?_, fun env exec => ?_, fun env exec => ?_, rfl⟩
  · have s1 : ex_run_string env exec inpFrob =
        runGo env exec 11 inpFrob ExArg.init [] := rfl
    rw [s1, runGo_unknown env exec 11 inpFrob ExArg.init [] inpFrob
      (by decide) (by decide) rfl]
  · have s1 : ex_run_string env exec inpFrobChain =
        runGo env exec 16 inpFrobChain ExArg.init [] := rfl
    rw [s1, runGo_unknown env exec 16 inpFrobChain ExArg.init [] inpFrobChain
      (by decide) (by decide) rfl]
  · have s1 : ex_run_string env exec inpAlpha25 =
        runGo env exec 26 inpAlpha25 ExArg.init [] := rfl
    rw [s1, runGo_unknown env exec 26 inpAlpha25 ExArg.init [] (inpAlpha25.take 20)
      (by decide) (by decide) rfl]

/-- C7 counterexample: parsing the first command of `quit x|quit` consumes the
character `x` — which is neither a newline nor `|` — in the final
advance-one-character step, leaving the cursor on the `|` rather than at the
start of the next chained command. -/
theorem c7_counterexample :
    parse envEx inpQuitX ExArg.init = ParseResult.ok argQuitX ['|','q','u','i','t'] ∧
    ¬ ('x' = '|' ∨ 'x' = '\n') := by
  refine ⟨rfl, by decide⟩

/-- C7 (amended): after the arguments are parsed the parser unconditionally
advances past ONE character if any remains, whatever it is.  For commands that
declare an rhs this character is necessarily a terminator, because `parse_rhs`
only ever stops at end of input, a newline or `|` — so for them the cursor is
left at the start of a possible next chained command (e.g. `open a|quit`
leaves `quit`).  For commands without an rhs the consumed character can be any
non-space character (e.g. `quit x` consumes the `x`). -/
theorem c7_amended :
    (∀ (env : Env) (flags : Nat) (input acc : Str),
      (parse_rhs env flags input acc).2 = [] ∨
      (parse_rhs env flags input acc).2.head? = some '\n' ∨
      (parse_rhs env flags input acc).2.head? = some '|') ∧
    parse envEx inpOpenChain ExArg.init = ParseResult.ok argOpenA ['q','u','i','t'] ∧
    parse envEx inpQuitX2 ExArg.init = ParseResult.ok argQuitX [] := by
  refine ⟨fun env flags input acc => ?_, rfl, rfl⟩
  induction input, acc using parse_rhs.induct env flags with
  | case1 acc => simp [parse_rhs]
  | case10 =>
    rw [parse_rhs.eq_def]
    simp_all +decide
    split
    · tauto
    · assumption
  | _ => rw [parse_rhs.eq_def]; simp_all +decide

/-- C8: if a history session is active and the live input differs from
`prefix ++ entries[cursor]`, the navigation step behaves exactly as if no
session existed at all: the stale session is rewound (entry list released,
prefix cleared) and a brand-new session is started from a fresh
`history_get_list` fetch filtered by the current input — the stale cursor is
never continued. -/
theorem c8_divergence_restart (env : Env) (hs : HistState) (z : HZip)
    (input : Str) (prev : Bool) (hz : hs.active = some z)
    (hmiss : input ≠ hs.pfx ++ z.cur) :
    history env hs input prev = history env ⟨[], none⟩ input prev := by
  unfold history
  rw [hz]
  simp only [if_pos hmiss]
  rw [history_rewind, if_pos (by rw [hz]; rfl)]

/-- C8 witness: a session showing `:abc` with the input manually edited to
`:abX`. -/
theorem c8_witness :
    hsEx.active = some hzEx ∧ inpDiverged ≠ hsEx.pfx ++ hzEx.cur ∧
    history envEx hsEx inpDiverged true = history envEx ⟨[], none⟩ inpDiverged true :=
  ⟨rfl, by decide, c8_divergence_restart envEx hsEx hzEx inpDiverged true rfl (by decide)⟩

/-- C9 counterexample: a completion keystroke (`complete` with direction 1)
arriving while a history session is active does NOT end the history session:
afterwards the completion flag is set AND the history session is still active
with its entry list intact — both singleton sessions are active at once,
contradicting the claimed mutual exclusion and eager invalidation. -/
theorem c9_counterexample :
    ((complete envEx stHistActive 1).1).compFlag = true ∧
    ((complete envEx stHistActive 1).1).hist.active = some hzEx :=
  ⟨rfl, rfl⟩

/-- C9 (amended): neither operation eagerly invalidates the other's session.
`complete` never reads or writes the history session state (`exhist`), and
`history` never reads or writes the completion state (`excomp` and the
completion flag); both sessions can therefore be active simultaneously.
Stale-session consistency is instead maintained lazily: each operation
compares the live input against its own session's predicted text on its next
invocation and resets only its own session on divergence. -/
theorem c9_amended :
    (∀ (env : Env) (st : ExState) (d : Int), ((complete env st d).1).hist = st.hist) ∧
    (∀ (env : Env) (st : ExState) (prev : Bool),
      ((history_step env st prev).1).comp = st.comp ∧
      ((history_step env st prev).1).compFlag = st.compFlag) := by
  refine ⟨fun env st d => ?_, fun env st prev => ⟨rfl, rfl⟩⟩
  simp only [complete]
  split
  · rw [compClean_hist]
  · split
    · rw [compNext_hist]
    · rw [freshBranch_hist]
      split
      · rw [compClean_hist]
      · rfl

/-- C10: `:bmr` with no argument parses to the bookmark-remove command with an
empty rhs, and the handler then asks the bookmark collaborator to remove the
bookmark for the current URI (`GET_URI()`), returning true exactly when that
removal succeeds — in which case it reports the "Bookmark removed" message
(which the source indents with two leading spaces) — and false otherwise. -/
theorem c10_bmr_fallback :
    (∀ env : Env, parse env inpBmr ExArg.init = ParseResult.ok argBmr []) ∧
    (∀ env : Env, ex_bookmark env argBmr =
      (env.bookmark_remove env.uri,
       if env.bookmark_remove env.uri then some bmRemovedMsg else none)) := by
  refine ⟨fun env => rfl, fun env => ?_⟩
  unfold ex_bookmark argBmr
  cases h : env.bookmark_remove env.uri <;> simp_all +decide [bmRemovedMsg]

end Vimb
